import Mathlib

/-!
Verification development for the PSP-SDL2 text generator (`simple_text.h`).

The C++ source is shallowly embedded:
* C strings (`const char *`, `std::string`) become `List Nat` of byte values
  (the content up to the terminating NUL, which a C string cannot contain);
* 32-bit machine integers (`uint32_t`, `size_t` on the 32-bit PSP target)
  become `Nat` with explicit reduction modulo `2 ^ 32`;
* `int` becomes `Int` (the truncating C division is `Int.tdiv`);
* `float` timer fields become `Rat` (only compared and reset by the
  modeled code, so exact arithmetic is a faithful stand-in);
* SDL side effects become explicit data: the backing texture of a `CombinedTexture` is the list of glyph composites drawn onto it, and what a call
  emits to the active output of the renderer is a list of `ScreenEvent`s.
-/

/-- `2 ^ 32`, the modulus of `uint32_t` and of the 32-bit `size_t`. -/
def U32 : Nat := 4294967296

/-- C conversion of an `int` value to the 32-bit unsigned `size_t`. -/
def toU32 (i : Int) : Nat := (i % (U32 : Int)).toNat

/-- Value of `(uint32_t)(int)c` where `c` is a signed `char` holding byte
`b` (GCC on the MIPS target of the PSP has signed `char`): sign extension fills
the upper 24 bits for bytes `≥ 0x80`. -/
def sextByte (b : Nat) : Nat := if b < 128 then b else 0xFFFFFF00 + b

/-- `is_utf8_start` from the source: lead-byte patterns for 2/3/4-byte
UTF-8 sequences. The `& 0xE0`-style masks agree between the signed-char
promotion and the raw byte because the mask constants fit in 8 bits. -/
def is_utf8_start (c : Nat) : Bool :=
  (c &&& 0xE0) == 0xC0 || (c &&& 0xF0) == 0xE0 || (c &&& 0xF8) == 0xF0

/-- `is_utf_cont` from the source: UTF-8 continuation byte pattern. -/
def is_utf_cont (c : Nat) : Bool := (c &&& 0xC0) == 0x80

/-- The push condition of the continuation branch:
`(i + 1 < strlen(text) && !is_utf_cont(text[i + 1])) || (i + 1 == strlen(text))`,
phrased on the remaining input. -/
def flushNow (rest : List Nat) : Bool :=
  match rest with
  | [] => true
  | b2 :: _ => !(is_utf_cont b2)

/-- The accumulation of a continuation byte into `temp_char`: the three
`if (current_offset == k)` tests all inspect the pre-decrement offset. -/
def contAccum (b temp_char current_offset : Nat) : Nat :=
  let num := (sextByte b <<< (current_offset * 8)) % U32
  let t1 := if current_offset == 0 then temp_char ||| (num &&& 0xff0000ff) else temp_char
  let t2 := if current_offset == 1 then t1 ||| (num &&& 0xff00ffff) else t1
  if current_offset == 2 then t2 ||| (num &&& 0xffffffff) else t2

/-- The loop body of `get_utf8_char_vector`, with the mutable locals
`temp_char`, `current_offset` and `mask` threaded explicitly.

Faithfulness notes, mirroring the C source line by line:
* on a lead byte, `temp_char` and `current_offset` are reset and the
  sign-extended value of the lead byte is shifted into place; the fourth arm
  of the lead branch is unreachable (kept for structural fidelity);
* on a continuation byte, the three `if (current_offset == k)` tests all
  inspect the pre-decrement value, then `current_offset--` wraps as a
  `uint8_t`; the code point is pushed (after XOR with `mask`) exactly
  when the next byte is absent or is not a continuation byte;
* shifts whose count exceeds 31 are undefined behaviour in C; the model
  shifts over `Nat` and reduces mod `2 ^ 32`, which only matters for
  malformed inputs no theorem below evaluates;
* `mask` is read uninitialized in C when a continuation byte precedes
  any lead byte; the model starts it at 0, again only reachable for
  malformed inputs. -/
def utf8Loop : List Nat → Nat → Nat → Nat → List Nat
  | [], _, _, _ => []
  | b :: rest, temp_char, current_offset, mask =>
    if is_utf8_start b then
      if (b &&& 0xE0) == 0xC0 then
        utf8Loop rest ((0 ||| ((sextByte b <<< 8) % U32))) 0 0xffff0000
      else if (b &&& 0xF0) == 0xE0 then
        utf8Loop rest ((0 ||| ((sextByte b <<< 16) % U32))) 1 0xff000000
      else if (b &&& 0xF8) == 0xF0 then
        utf8Loop rest ((0 ||| ((sextByte b <<< 24) % U32))) 2 0x00000000
      else
        utf8Loop rest 0 0 mask
    else if is_utf_cont b then
      let t3 := contAccum b temp_char current_offset
      let off := (current_offset + 255) % 256
      if flushNow rest then (t3 ^^^ mask) :: utf8Loop rest t3 off mask
      else utf8Loop rest t3 off mask
    else
      sextByte b :: utf8Loop rest temp_char current_offset mask

/-- `get_utf8_char_vector` from the source: decode a C string (iterated
with `strlen`, hence up to the first NUL byte) into 32-bit code points. -/
def get_utf8_char_vector (text : List Nat) : List Nat :=
  utf8Loop (text.takeWhile (fun b => b != 0)) 0 0 0

/-- Linear scan of `get_char_index`, tracking the running index `i`. -/
def charIndexGo : List Nat → Nat → Int → Int
  | [], _, _ => -1
  | a :: as, c, i => if a = c then i else charIndexGo as c (i + 1)

/-- `get_char_index` from the source: decode the atlas alphabet string and
return the first position holding `character`, or `-1`. -/
def get_char_index (character : Nat) (atlas : List Nat) : Int :=
  charIndexGo (get_utf8_char_vector atlas) character 0

/-- `SDL_Rect`. -/
structure Rect where
  x : Int
  y : Int
  w : Int
  h : Int
deriving DecidableEq

/-- `get_atlas_rect_by_index` from the source (`atlas_height` is unused
there as well; C `/` and `%` on `int` are `Int.tdiv` and `Int.tmod`). -/
def get_atlas_rect_by_index (index atlas_width _atlas_height cell_width cell_height : Int) :
    Rect :=
  let cells_per_row := Int.tdiv atlas_width cell_width
  let row := Int.tdiv index cells_per_row
  let col := Int.tmod index cells_per_row
  { x := col * cell_width, y := row * cell_height, w := cell_width, h := cell_height }

/-- `remove_new_lines` from the source: repeatedly erase the first newline (byte 10)
until none remains, i.e. drop every byte 10. -/
def remove_new_lines (input_string : List Nat) : List Nat :=
  input_string.filter (fun b => b != 10)

/-- The newline-delimited `std::getline` loop of `split_string_by_newline`:
segments between newline bytes; a trailing newline ends the last segment
without starting an empty one. -/
def splitNLAux : List Nat → List Nat → List (List Nat)
  | [], cur => [cur]
  | [10], cur => [cur]
  | 10 :: rest, cur => cur :: splitNLAux rest []
  | b :: rest, cur => splitNLAux rest (cur ++ [b])

/-- `split_string_by_newline` from the source; on the empty string the
first `getline` already fails, producing no lines. -/
def split_string_by_newline (input_string : List Nat) : List (List Nat) :=
  match input_string with
  | [] => []
  | s => (splitNLAux s []).map remove_new_lines

/-- Whitespace for `operator>>` extraction (default locale `isspace`). -/
def isWS (b : Nat) : Bool :=
  b == 32 || b == 9 || b == 10 || b == 11 || b == 12 || b == 13

/-- One step of grouping a byte onto the token list being built from the
right: whitespace closes a (possibly empty) group, other bytes extend the
current head group. -/
def tokStep (b : Nat) (acc : List (List Nat)) : List (List Nat) :=
  if isWS b then [] :: acc
  else
    match acc with
    | [] => [[b]]
    | t :: ts => (b :: t) :: ts

/-- The token stream `iss >> word` yields: maximal whitespace-free runs. -/
def tokenize (s : List Nat) : List (List Nat) :=
  (s.foldr tokStep []).filter (fun t => !t.isEmpty)

/-- The append test of `split_text_by_size`.  In C it is
`(lastElement.length() * real_offset) + (word.length() * real_offset) +
real_offset <= max_length` where the lengths are `size_t`, so `real_offset`
and `max_length` are converted to the 32-bit unsigned `size_t` and the sum
is taken mod `2 ^ 32`. -/
def stbsCond (lastLen wordLen : Nat) (real_offset max_length : Int) : Bool :=
  (lastLen * toU32 real_offset + wordLen * toU32 real_offset + toU32 real_offset) % U32
    ≤ toU32 max_length

/-- The `while (iss >> word)` loop of `split_text_by_size` after the first
token has opened the result: `cur` is the line currently at `result.back()`
(the code mutates it in place with `+= " " + word`). -/
def stbsGo (ws : List (List Nat)) (cur : List Nat) (real_offset max_length : Int) :
    List (List Nat) :=
  match ws with
  | [] => [cur]
  | w :: rest =>
    if stbsCond cur.length w.length real_offset max_length then
      stbsGo rest (cur ++ 32 :: w) real_offset max_length
    else
      cur :: stbsGo rest w real_offset max_length

/-- `split_text_by_size` from the source: greedy word wrap.  The first
token of the text (and the first token after each break) is pushed
unconditionally. -/
def split_text_by_size (text : List Nat) (size h_offset max_length : Int) :
    List (List Nat) :=
  let real_offset := size - Int.tdiv (size * h_offset) 100
  match tokenize text with
  | [] => []
  | w :: rest => stbsGo rest w real_offset max_length

/-- `get_all_lines` from the source: newline split, then width wrap of
each segment, concatenated. -/
def get_all_lines (text : List Nat) (size h_offset max_length : Int) :
    List (List Nat) :=
  ((split_string_by_newline text).map
    (fun t => split_text_by_size t size h_offset max_length)).flatten

/-- The loop of `get_current_line`, threading `total_chars` and the line
counter `i`; each line contributes its decoded length plus one. -/
def gclAux : List (List Nat) → Int → Int → Int → Int
  | [], _, _, _ => -1
  | l :: ls, current_char, total_chars, i =>
    let total' := total_chars + ((get_utf8_char_vector l).length : Int) + 1
    if total' > current_char then i else gclAux ls current_char total' (i + 1)

/-- `get_current_line` from the source. -/
def get_current_line (lines : List (List Nat)) (current_char : Int) : Int :=
  gclAux lines current_char 0 0

/-- Total decoded character count of a line list (no `+1` separators). -/
def total_char_count (lines : List (List Nat)) : Nat :=
  (lines.map (fun l => (get_utf8_char_vector l).length)).sum

/-- Total accumulated by `get_current_line`: decoded length plus one per
line. -/
def total_with_seps (lines : List (List Nat)) : Nat :=
  (lines.map (fun l => (get_utf8_char_vector l).length + 1)).sum

/-- Join token lists with single spaces, as `lastElement += " " + word`
builds lines. -/
def joinSpace : List (List Nat) → List Nat
  | [] => []
  | [t] => t
  | t :: ts => t ++ 32 :: joinSpace ts

/-- One glyph composited from the atlas: the `SDL_RenderCopy(renderer,
font_atlas.atlas_texture, &source, &destiny)` of the draw loops. -/
structure GlyphDraw where
  src : Rect
  dest : Rect
deriving DecidableEq

/-- What a draw call emits to the active output of the renderer (the screen):
a full blit of a cached target texture (`SDL_RenderCopy(renderer,
target->texture, nullptr, nullptr)`), a partial blit with a source and
destination rectangle (the `finished` path of `draw_text_multiline`), or
a direct glyph draw when no target texture is used. -/
inductive ScreenEvent where
  | blitCache (surf : List GlyphDraw)
  | blitCacheRect (surf : List GlyphDraw) (r : Rect)
  | glyph (g : GlyphDraw)
deriving DecidableEq

/-- `CombinedTexture` from the source.  `texture = none` models the null
pointer; `some surf` models a live texture whose content is the list of
glyph composites drawn onto it since it was created and cleared. -/
structure CombinedTexture where
  finished : Bool
  texture : Option (List GlyphDraw)
deriving DecidableEq

/-- The per-character loop shared verbatim by `draw_text` and
`draw_utf8_text` when a target is supplied.  For each code point: a space
advances the cursor and re-presents the cached surface; a mapped glyph is
composited onto the cached surface (via the temporary texture) and the
updated surface is presented; an unmapped code point just re-presents the
surface.  Returns the final surface and the emitted screen events. -/
def targetLoop (cs atlas : List Nat) (x y size h_offset : Int) (surf : List GlyphDraw) :
    List GlyphDraw × List ScreenEvent :=
  match cs with
  | [] => (surf, [])
  | c :: rest =>
    if c = 32 then
      let p := targetLoop rest atlas (x + (size - Int.tdiv (h_offset * size) 100)) y
        size h_offset surf
      (p.1, ScreenEvent.blitCache surf :: p.2)
    else
      let index := get_char_index c atlas
      if index ≠ -1 then
        let src := get_atlas_rect_by_index index 512 512 32 32
        let surf' := surf ++ [{ src := src, dest := { x := x, y := y, w := size, h := size } }]
        let p := targetLoop rest atlas (x + (size - Int.tdiv (h_offset * size) 100)) y
          size h_offset surf'
        (p.1, ScreenEvent.blitCache surf' :: p.2)
      else
        let p := targetLoop rest atlas x y size h_offset surf
        (p.1, ScreenEvent.blitCache surf :: p.2)

/-- The same loop when no target is supplied: mapped glyphs are drawn
directly to the active output, spaces only advance the cursor, unmapped
code points do nothing. -/
def noTargetLoop (cs atlas : List Nat) (x y size h_offset : Int) : List ScreenEvent :=
  match cs with
  | [] => []
  | c :: rest =>
    if c = 32 then
      noTargetLoop rest atlas (x + (size - Int.tdiv (h_offset * size) 100)) y size h_offset
    else
      let index := get_char_index c atlas
      if index ≠ -1 then
        let src := get_atlas_rect_by_index index 512 512 32 32
        ScreenEvent.glyph { src := src, dest := { x := x, y := y, w := size, h := size } }
          :: noTargetLoop rest atlas (x + (size - Int.tdiv (h_offset * size) 100)) y
            size h_offset
      else
        noTargetLoop rest atlas x y size h_offset

/-- Common body of `draw_text` and `draw_utf8_text` (their C bodies are
textually identical once the string has been decoded).  With a target:
a null texture is first created and cleared; if `finished` is set, the
cached texture is blitted and the call returns; otherwise the characters
are composited and `finished` is set.  Without a target the characters go
straight to the output. -/
def drawCore (utf8_text atlas : List Nat) (x y size h_offset : Int)
    (target : Option CombinedTexture) : Option CombinedTexture × List ScreenEvent :=
  match target with
  | none => (none, noTargetLoop utf8_text atlas x y size h_offset)
  | some t0 =>
    let t := if t0.texture.isNone then { t0 with texture := some [] } else t0
    if t.finished then
      (some t, [ScreenEvent.blitCache (t.texture.getD [])])
    else
      let p := targetLoop utf8_text atlas x y size h_offset (t.texture.getD [])
      (some { t with texture := some p.1, finished := true }, p.2)

/-- `draw_utf8_text` from the source. -/
def draw_utf8_text (utf8_text atlas : List Nat) (x y size h_offset : Int)
    (target : Option CombinedTexture) : Option CombinedTexture × List ScreenEvent :=
  drawCore utf8_text atlas x y size h_offset target

/-- `draw_text` from the source: decodes the string, then proceeds exactly
as `draw_utf8_text`. -/
def draw_text (text atlas : List Nat) (x y size h_offset : Int)
    (target : Option CombinedTexture) : Option CombinedTexture × List ScreenEvent :=
  drawCore (get_utf8_char_vector text) atlas x y size h_offset target

/-- The per-line loop of `draw_text_multiline`: each line clears the
`finished` flag of the target (when a target is supplied) and is drawn with
`draw_text`; the vertical cursor advances by `size * v_offset / 100`. -/
def mlLoop (ls : List (List Nat)) (atlas : List Nat) (x y size h_offset v_offset : Int)
    (target : Option CombinedTexture) : Option CombinedTexture × List ScreenEvent :=
  match ls with
  | [] => (target, [])
  | l :: rest =>
    let cleared := match target with
      | some t => some { t with finished := false }
      | none => none
    let p := draw_text l atlas x y size h_offset cleared
    let q := mlLoop rest atlas x (y + Int.tdiv (size * v_offset) 100) size h_offset
      v_offset p.1
    (q.1, p.2 ++ q.2)

/-- `draw_text_multiline` from the source.  A finished target is blitted
through the destination rectangle and the call returns; otherwise the
lines (the caller-supplied `c_lines` or a fresh width wrap) are drawn one
by one. -/
def draw_text_multiline (text atlas : List Nat) (rect : Rect) (size h_offset v_offset : Int)
    (target : Option CombinedTexture) (c_lines : Option (List (List Nat))) :
    Option CombinedTexture × List ScreenEvent :=
  match target with
  | some t =>
    if t.finished then
      (some t, [ScreenEvent.blitCacheRect (t.texture.getD [])
        { x := rect.x, y := rect.y, w := rect.w, h := rect.h }])
    else
      let lines := match c_lines with
        | some cl => cl
        | none => split_text_by_size text size h_offset rect.w
      mlLoop lines atlas rect.x rect.y size h_offset v_offset (some t)
  | none =>
    let lines := match c_lines with
      | some cl => cl
      | none => split_text_by_size text size h_offset rect.w
    mlLoop lines atlas rect.x rect.y size h_offset v_offset none

/-- `TypeStats` from the source.  The `current_lines` and `temp_text`
fields are never read or written by the modeled functions and are
omitted; the timer fields are `float` in C, modeled as `Rat` (the code
only compares them and resets the timer to zero). -/
structure TypeStats where
  utf8_text : List Nat
  type_counter : Int
  current_x : Int
  timer : Rat
  duration : Rat
deriving DecidableEq

/-- Result of one `draw_typewriter` invocation: the updated stats and
target, the screen events emitted, and whether the completion callback
was invoked during this tick. -/
structure TypewriterResult where
  stats : TypeStats
  target : CombinedTexture
  events : List ScreenEvent
  callbackInvoked : Bool
deriving DecidableEq

/-- `draw_typewriter` from the source (the function dereferences `target`
unconditionally, so the model takes a `CombinedTexture` directly;
`hasCallback` models `callback != nullptr`).

Faithfulness notes:
* `stats.type_counter > stats.utf8_text.size() - 1` compares the `int`
  counter with a 32-bit `size_t`, so both sides go through `toU32` /
  wrap-around subtraction;
* the cursor reset compares `get_current_line` of the counter and of its
  predecessor *before* the unmapped-glyph skip check;
* the skip check compares against `get_utf8_char_vector("  ")[0]`,
  modeled literally;
* the callback condition compares the incremented counter against
  `tmptext.length() - 1`, the *byte* length of the newline-stripped
  string, again as `size_t`. -/
def draw_typewriter (text atlas : List Nat) (rect : Rect) (target : CombinedTexture)
    (stats : TypeStats) (size : Int) (hasCallback : Bool) (h_offset v_offset : Int) :
    TypewriterResult :=
  let lines := get_all_lines text size h_offset rect.w
  let tmptext := remove_new_lines text
  let stats :=
    if stats.utf8_text.length == 0 then
      { stats with utf8_text := get_utf8_char_vector tmptext }
    else stats
  if toU32 stats.type_counter > (stats.utf8_text.length + U32 - 1) % U32 then
    { stats := stats, target := target,
      events := [ScreenEvent.blitCache (target.texture.getD [])], callbackInvoked := false }
  else if stats.timer > stats.duration then
    let current_line := get_current_line lines stats.type_counter
    let stats :=
      if stats.type_counter > 0 ∧ current_line > get_current_line lines (stats.type_counter - 1)
      then { stats with current_x := rect.x }
      else stats
    let c := stats.utf8_text.getD stats.type_counter.toNat 0
    if get_char_index c atlas = -1 ∧ c ≠ (get_utf8_char_vector [32, 32]).getD 0 0 then
      { stats := { stats with type_counter := stats.type_counter + 1 }, target := target,
        events := [ScreenEvent.blitCache (target.texture.getD [])], callbackInvoked := false }
    else
      let target1 := { target with finished := false }
      let p := draw_utf8_text [c] atlas stats.current_x
        (rect.y + current_line * (Int.tdiv (size * v_offset) 100)) size h_offset (some target1)
      let target2 := p.1.getD target1
      let stats :=
        { stats with
          current_x := stats.current_x + (size - Int.tdiv (h_offset * size) 100),
          timer := 0,
          type_counter := stats.type_counter + 1 }
      { stats := stats, target := target2, events := p.2,
        callbackInvoked :=
          toU32 stats.type_counter > (tmptext.length + U32 - 1) % U32 && hasCallback }
  else
    { stats := stats, target := target,
      events := [ScreenEvent.blitCache (target.texture.getD [])], callbackInvoked := false }

/-- A frame-driven run of the typewriter: before each tick the caller
folds the delta time of the frame into `stats.timer` (as the `TypeStats`
documentation prescribes), then `draw_typewriter` executes one tick.
Returns the number of ticks on which the callback was invoked. -/
def typewriterRun (text atlas : List Nat) (rect : Rect) (size : Int) (hasCallback : Bool)
    (h_offset v_offset : Int) :
    List Rat → CombinedTexture → TypeStats → Nat
  | [], _, _ => 0
  | d :: ds, target, stats =>
    let r := draw_typewriter text atlas rect target
      { stats with timer := stats.timer + d } size hasCallback h_offset v_offset
    (if r.callbackInvoked then 1 else 0) +
      typewriterRun text atlas rect size hasCallback h_offset v_offset ds r.target r.stats

/-- One call to a cached-drawing entry point, with all its non-target
arguments. -/
inductive DrawCall where
  | text (text atlas : List Nat) (x y size h_offset : Int)
  | utf8 (cs atlas : List Nat) (x y size h_offset : Int)
  | multiline (text atlas : List Nat) (rect : Rect) (size h_offset v_offset : Int)
      (c_lines : Option (List (List Nat)))

/-- Dispatch one `DrawCall` against a target. -/
def applyCall (c : DrawCall) (target : Option CombinedTexture) :
    Option CombinedTexture × List ScreenEvent :=
  match c with
  | DrawCall.text t a x y s h => draw_text t a x y s h target
  | DrawCall.utf8 cs a x y s h => draw_utf8_text cs a x y s h target
  | DrawCall.multiline t a r s h v cl => draw_text_multiline t a r s h v target cl

/-- Run a sequence of draw calls against a target, concatenating the
emitted screen events. -/
def runCalls : List DrawCall → Option CombinedTexture → Option CombinedTexture × List ScreenEvent
  | [], t => (t, [])
  | c :: cs, t =>
    let p := applyCall c t
    let q := runCalls cs p.1
    (q.1, p.2 ++ q.2)

/-- Is this event a pure re-presentation (blit) of the cached surface
`surf`, with no draw primitive issued to it? -/
def isCacheBlit (surf : List GlyphDraw) : ScreenEvent → Bool
  | ScreenEvent.blitCache s => s == surf
  | ScreenEvent.blitCacheRect s _ => s == surf
  | ScreenEvent.glyph _ => false

lemma not_start_of_ascii {b : Nat} (hb : b < 128) : is_utf8_start b = false := by
  have h1 : b &&& 224 ≤ b := Nat.and_le_left
  have h2 : b &&& 240 ≤ b := Nat.and_le_left
  have h3 : b &&& 248 ≤ b := Nat.and_le_left
  simp only [is_utf8_start, Bool.or_eq_false_iff, beq_eq_false_iff_ne, ne_eq]
  omega

lemma not_cont_of_ascii {b : Nat} (hb : b < 128) : is_utf_cont b = false := by
  have h1 : b &&& 192 ≤ b := Nat.and_le_left
  simp only [is_utf_cont, beq_eq_false_iff_ne, ne_eq]
  omega

lemma utf8Loop_ascii (l : List Nat) (h : ∀ b ∈ l, b < 128) :
    ∀ t o m, utf8Loop l t o m = l := by
  induction l with
  | nil => intro t o m; rfl
  | cons b rest ih =>
    intro t o m
    have hb : b < 128 := h b (by simp)
    rw [utf8Loop.eq_2, not_start_of_ascii hb, not_cont_of_ascii hb]
    simp only [Bool.false_eq_true, if_false]
    rw [ih (fun x hx => h x (List.mem_cons_of_mem _ hx))]
    simp [sextByte, hb]

lemma takeWhile_nonzero (l : List Nat) (h : ∀ b ∈ l, 0 < b) :
    l.takeWhile (fun b => b != 0) = l := by
  induction l with
  | nil => rfl
  | cons b rest ih =>
    have hb : 0 < b := h b (by simp)
    have hb' : (b != 0) = true := by simp; omega
    simp [List.takeWhile_cons, hb', ih (fun x hx => h x (List.mem_cons_of_mem _ hx))]

/-- Claim C7 (confirmed): for every ASCII-only input (each byte nonzero —
a C string cannot contain NUL — and below 128), `get_utf8_char_vector`
returns the input bytes themselves, widened: exactly N code points for N
input bytes, the i-th equal to the i-th byte, in original order. -/
theorem c7_ascii_decode (l : List Nat) (h : ∀ b ∈ l, 0 < b ∧ b < 128) :
    get_utf8_char_vector l = l := by
  unfold get_utf8_char_vector
  rw [takeWhile_nonzero l (fun b hb => (h b hb).1)]
  exact utf8Loop_ascii l (fun b hb => (h b hb).2) 0 0 0

theorem c7_witness :
    (∀ b ∈ [104, 105], 0 < b ∧ b < 128) ∧ get_utf8_char_vector [104, 105] = [104, 105] :=
  ⟨by decide, c7_ascii_decode [104, 105] (by decide)⟩

set_option maxRecDepth 8000 in
lemma lead2_range : ∀ b < 256, b &&& 224 = 192 → 192 ≤ b ∧ b < 224 := by decide
set_option maxRecDepth 8000 in
lemma cont_range : ∀ b < 256, b &&& 192 = 128 → 128 ≤ b ∧ b < 192 := by decide

set_option maxRecDepth 4000 in
/-- Claim C8 (confirmed): an input consisting of a single valid 2-byte
UTF-8 sequence — a lead byte matching the 2-byte pattern `& 0xE0 == 0xC0`
followed by one continuation byte `& 0xC0 == 0x80` — decodes to exactly
one code point, whose 32-bit value is `256 * lead + continuation` (the
packed byte pair).  The decoder is a pure function of its input, so
repeated decodes of the same input yield this same value. -/
theorem c8_two_byte (b1 b2 : Nat) (hb1 : b1 < 256) (hb2 : b2 < 256)
    (hl : b1 &&& 0xE0 = 0xC0) (hc : b2 &&& 0xC0 = 0x80) :
    get_utf8_char_vector [b1, b2] = [256 * b1 + b2] := by
  obtain ⟨hl1, hl2⟩ := lead2_range b1 hb1 hl
  obtain ⟨hc1, hc2⟩ := cont_range b2 hb2 hc
  interval_cases b1 <;> interval_cases b2 <;> decide

theorem c8_witness :
    (195 &&& 0xE0 = 0xC0 ∧ 169 &&& 0xC0 = 0x80) ∧
      get_utf8_char_vector [195, 169] = [256 * 195 + 169] :=
  ⟨by decide, c8_two_byte 195 169 (by decide) (by decide) (by decide) (by decide)⟩

lemma gclAux_ge (ls : List (List Nat)) :
    ∀ cc t i, gclAux ls cc t i = -1 ∨ i ≤ gclAux ls cc t i := by
  induction ls with
  | nil => intro cc t i; left; rfl
  | cons l ls ih =>
    intro cc t i
    rw [gclAux]
    split
    · right; omega
    · rcases ih cc (t + ((get_utf8_char_vector l).length : Int) + 1) (i + 1) with h | h
      · left; exact h
      · right; omega

lemma total_with_seps_cons (l : List Nat) (ls : List (List Nat)) :
    total_with_seps (l :: ls) = (get_utf8_char_vector l).length + 1 + total_with_seps ls := by
  simp [total_with_seps]

lemma gclAux_eq_neg_one (ls : List (List Nat)) :
    ∀ cc t i, 0 ≤ i →
      (gclAux ls cc t i = -1 ↔ (ls = [] ∨ t + (total_with_seps ls : Int) ≤ cc)) := by
  induction ls with
  | nil => intro cc t i _; simp [gclAux]
  | cons l ls ih =>
    intro cc t i hi
    have hpos : (0 : Int) ≤ (total_with_seps ls : Int) := Int.natCast_nonneg _
    have hrw : (total_with_seps (l :: ls) : Int)
        = ((get_utf8_char_vector l).length : Int) + 1 + (total_with_seps ls : Int) := by
      rw [total_with_seps_cons]; push_cast; ring
    simp only [gclAux]
    by_cases hgt : t + ((get_utf8_char_vector l).length : Int) + 1 > cc
    · rw [if_pos hgt]
      constructor
      · intro h; exfalso; omega
      · intro h
        exfalso
        rcases h with h | h
        · simp at h
        · rw [hrw] at h; omega
    · rw [if_neg hgt]
      rw [ih cc (t + ((get_utf8_char_vector l).length : Int) + 1) (i + 1) (by omega)]
      constructor
      · intro h
        right
        rw [hrw]
        rcases h with h | h
        · subst h
          simp [total_with_seps] at *
          omega
        · omega
      · intro h
        rcases h with h | h
        · simp at h
        · rw [hrw] at h
          by_cases hnil : ls = []
          · left; exact hnil
          · right; omega

lemma gclAux_mono (ls : List (List Nat)) :
    ∀ cc1 cc2 t i, cc1 ≤ cc2 → 0 ≤ i → gclAux ls cc2 t i ≠ -1 →
      gclAux ls cc1 t i ≤ gclAux ls cc2 t i := by
  induction ls with
  | nil => intro cc1 cc2 t i _ _ h; exact absurd rfl h
  | cons l ls ih =>
    intro cc1 cc2 t i hcc hi h
    simp only [gclAux] at h ⊢
    by_cases h2 : t + ((get_utf8_char_vector l).length : Int) + 1 > cc2
    · have h1 : t + ((get_utf8_char_vector l).length : Int) + 1 > cc1 := by omega
      rw [if_pos h1, if_pos h2]
    · rw [if_neg h2] at h
      by_cases h1 : t + ((get_utf8_char_vector l).length : Int) + 1 > cc1
      · rw [if_pos h1, if_neg h2]
        rcases gclAux_ge ls cc2 (t + ((get_utf8_char_vector l).length : Int) + 1) (i + 1)
          with hh | hh
        · exact absurd hh h
        · omega
      · rw [if_neg h1, if_neg h2]
        exact ih cc1 cc2 (t + ((get_utf8_char_vector l).length : Int) + 1) (i + 1) hcc
          (by omega) h

lemma tokGroups_ws_free (s : List Nat) :
    ∀ t ∈ s.foldr tokStep [], ∀ b ∈ t, isWS b = false := by
  induction s with
  | nil => simp
  | cons a s ih =>
    simp only [List.foldr_cons]
    intro t ht b hb
    by_cases hws : isWS a
    · rw [tokStep.eq_def, if_pos hws] at ht
      rcases List.mem_cons.mp ht with h | h
      · subst h; simp at hb
      · exact ih t h b hb
    · rw [tokStep.eq_def, if_neg hws] at ht
      cases hacc : s.foldr tokStep [] with
      | nil =>
        rw [hacc] at ht
        simp at ht
        subst ht
        simp at hb
        subst hb
        simpa using hws
      | cons g gs =>
        rw [hacc] at ht
        simp at ht
        rcases ht with h | h
        · subst h
          rcases List.mem_cons.mp hb with h2 | h2
          · subst h2; simpa using hws
          · exact ih g (by rw [hacc]; simp) b h2
        · exact ih t (by rw [hacc]; simp [h]) b hb

lemma tokenize_ws_free (s : List Nat) :
    ∀ t ∈ tokenize s, ∀ b ∈ t, isWS b = false := by
  intro t ht b hb
  unfold tokenize at ht
  exact tokGroups_ws_free s t (List.mem_of_mem_filter ht) b hb

lemma tokenize_no_space (s : List Nat) : ∀ t ∈ tokenize s, (32 : Nat) ∉ t := by
  intro t ht h32
  have := tokenize_ws_free s t ht 32 h32
  simp [isWS] at this

lemma joinSpace_cons (t : List Nat) (ts : List (List Nat)) (h : ts ≠ []) :
    joinSpace (t :: ts) = t ++ 32 :: joinSpace ts := by
  cases ts with
  | nil => exact absurd rfl h
  | cons a as => rfl

lemma joinSpace_append_single (ts : List (List Nat)) (w : List Nat) (h : ts ≠ []) :
    joinSpace (ts ++ [w]) = joinSpace ts ++ 32 :: w := by
  induction ts with
  | nil => exact absurd rfl h
  | cons a as ih =>
    cases as with
    | nil => rfl
    | cons b bs =>
      rw [List.cons_append, joinSpace_cons a ((b :: bs) ++ [w]) (by simp),
        joinSpace_cons a (b :: bs) (by simp), ih (by simp)]
      simp

lemma stbsGo_sound (text : List Nat) (ro ml : Int) :
    ∀ (ws : List (List Nat)), ∀ (cur : List Nat),
      (∀ w ∈ ws, w ∈ tokenize text) →
      (∃ ts, ts ≠ [] ∧ (∀ t ∈ ts, t ∈ tokenize text) ∧ cur = joinSpace ts) →
      (32 ∈ cur → (cur.length * toU32 ro) % U32 ≤ toU32 ml) →
      ∀ l ∈ stbsGo ws cur ro ml,
        (∃ ts, ts ≠ [] ∧ (∀ t ∈ ts, t ∈ tokenize text) ∧ l = joinSpace ts) ∧
        (32 ∈ l → (l.length * toU32 ro) % U32 ≤ toU32 ml) := by
  intro ws
  induction ws with
  | nil =>
    intro cur _ hcur hbound l hl
    simp only [stbsGo, List.mem_singleton] at hl
    subst hl
    exact ⟨hcur, hbound⟩
  | cons w rest ih =>
    intro cur hws hcur hbound l hl
    have hwmem : w ∈ tokenize text := hws w (List.mem_cons_self w rest)
    have hrest : ∀ x ∈ rest, x ∈ tokenize text := fun x hx => hws x (List.mem_cons_of_mem _ hx)
    rw [stbsGo] at hl
    by_cases hc : stbsCond cur.length w.length ro ml = true
    · rw [if_pos hc] at hl
      obtain ⟨ts, hts1, hts2, hts3⟩ := hcur
      have hmem2 : ∀ t ∈ ts ++ [w], t ∈ tokenize text := by
        intro t ht
        rcases List.mem_append.mp ht with h | h
        · exact hts2 t h
        · rw [List.mem_singleton] at h; subst h; exact hwmem
      have hjoin : cur ++ 32 :: w = joinSpace (ts ++ [w]) := by
        rw [joinSpace_append_single ts w hts1, hts3]
      have hbnd2 : 32 ∈ cur ++ 32 :: w →
          ((cur ++ 32 :: w).length * toU32 ro) % U32 ≤ toU32 ml := by
        intro _
        have hlen : (cur ++ 32 :: w).length = cur.length + 1 + w.length := by
          simp; omega
        rw [hlen]
        simp only [stbsCond, decide_eq_true_eq] at hc
        have heq : (cur.length + 1 + w.length) * toU32 ro
            = cur.length * toU32 ro + w.length * toU32 ro + toU32 ro := by ring
        rw [heq]
        exact hc
      exact ih (cur ++ 32 :: w) hrest ⟨ts ++ [w], by simp, hmem2, hjoin⟩ hbnd2 l hl
    · rw [if_neg hc] at hl
      rcases List.mem_cons.mp hl with h | h
      · subst h; exact ⟨hcur, hbound⟩
      · have hsing : ∀ t ∈ [w], t ∈ tokenize text := by
          intro t ht
          rw [List.mem_singleton] at ht
          subst ht
          exact hwmem
        have hbnd2 : 32 ∈ w → (w.length * toU32 ro) % U32 ≤ toU32 ml := fun h32 =>
          absurd h32 (tokenize_no_space text w hwmem)
        exact ih w hrest ⟨[w], List.cons_ne_nil w [], hsing, rfl⟩ hbnd2 l h

/-- Claim C3 (amended): every line produced by `split_text_by_size` is a
single-space join of whole input tokens (so every break falls on a
whitespace boundary), and every line that contains a space — i.e. was
formed by appending at least a second token — satisfies the width bound
`char_count * effective_advance ≤ max_length`, computed as the code does
(byte count, 32-bit unsigned `size_t` arithmetic).  Lines consisting of a
single over-long token are pushed unconditionally and are exempt. -/
theorem c3_split_width_bound (text : List Nat) (size h_offset max_length : Int)
    (l : List Nat) (hl : l ∈ split_text_by_size text size h_offset max_length) :
    (∃ ts, ts ≠ [] ∧ (∀ t ∈ ts, t ∈ tokenize text) ∧ l = joinSpace ts) ∧
    (32 ∈ l →
      (l.length * toU32 (size - Int.tdiv (size * h_offset) 100)) % U32
        ≤ toU32 max_length) := by
  rw [split_text_by_size.eq_def] at hl
  cases htok : tokenize text with
  | nil => rw [htok] at hl; simp at hl
  | cons w rest =>
    rw [htok] at hl
    simp only at hl
    have hwmem : w ∈ tokenize text := by rw [htok]; exact List.mem_cons_self w rest
    have hrest : ∀ x ∈ rest, x ∈ tokenize text := by
      intro x hx
      rw [htok]
      exact List.mem_cons_of_mem _ hx
    have hsing : ∀ t ∈ [w], t ∈ tokenize text := by
      intro t ht
      rw [List.mem_singleton] at ht
      subst ht
      exact hwmem
    have hbnd : 32 ∈ w →
        (w.length * toU32 (size - Int.tdiv (size * h_offset) 100)) % U32
          ≤ toU32 max_length := fun h32 => absurd h32 (tokenize_no_space text w hwmem)
    have hres := stbsGo_sound text (size - Int.tdiv (size * h_offset) 100) max_length rest w
      hrest ⟨[w], List.cons_ne_nil w [], hsing, rfl⟩ hbnd l hl
    rwa [htok] at hres

theorem c3_witness :
    ([97, 98, 32, 99, 100] ∈ split_text_by_size [97, 98, 32, 99, 100] 10 0 100) ∧
      (∃ ts, ts ≠ [] ∧ (∀ t ∈ ts, t ∈ tokenize [97, 98, 32, 99, 100]) ∧
        [97, 98, 32, 99, 100] = joinSpace ts) ∧
      (32 ∈ [97, 98, 32, 99, 100] →
        (([97, 98, 32, 99, 100].length : Nat) * toU32 (10 - Int.tdiv (10 * 0) 100)) % U32
          ≤ toU32 100) :=
  ⟨by decide, c3_split_width_bound [97, 98, 32, 99, 100] 10 0 100 [97, 98, 32, 99, 100]
    (by decide)⟩

/-- Claim C3 fails as stated: a single token longer than the width budget is
emitted as a line whose `char_count * effective_advance` exceeds
`max_length` (text bytes 97, 97, 97, 97, size 10, `h_offset` 0, `max_length` 10:
the only line has 4 characters, advance 10, and `40 > 10`). -/
theorem c3_counterexample :
    split_text_by_size [97, 97, 97, 97] 10 0 10 = [[97, 97, 97, 97]] ∧
      ¬ (((get_utf8_char_vector [97, 97, 97, 97]).length : Int)
          * (10 - Int.tdiv (10 * 0) 100) ≤ 10) := by decide

/-- Claim C4 (amended): for a nonempty line list, `get_current_line` is
monotone non-decreasing on queried indices whose result is not `-1`, and
it returns `-1` exactly for indices at or beyond the sum over lines of
`decoded length + 1` — which exceeds the total character count of the
lines, so some indices greater than the total character count still map
to a line. -/
theorem c4_get_current_line (lines : List (List Nat)) (i j : Int)
    (hne : lines ≠ []) (hij : i ≤ j) :
    (get_current_line lines j ≠ -1 →
      get_current_line lines i ≤ get_current_line lines j) ∧
    (get_current_line lines i = -1 ↔ (total_with_seps lines : Int) ≤ i) := by
  constructor
  · intro h
    exact gclAux_mono lines i j 0 0 hij le_rfl h
  · rw [get_current_line, gclAux_eq_neg_one lines i 0 0 le_rfl]
    simp [hne]

theorem c4_witness :
    (([[97, 98]] : List (List Nat)) ≠ [] ∧ (0 : Int) ≤ 1) ∧
      ((get_current_line [[97, 98]] 1 ≠ -1 →
        get_current_line [[97, 98]] 0 ≤ get_current_line [[97, 98]] 1) ∧
      (get_current_line [[97, 98]] 0 = -1 ↔ (total_with_seps [[97, 98]] : Int) ≤ 0)) :=
  ⟨⟨by decide, by decide⟩, c4_get_current_line [[97, 98]] 0 1 (by decide) (by decide)⟩

/-- Claim C4 fails as stated: with the two lines of bytes [97, 98] and
[99, 100] the total character count is 4, yet index 5 (which exceeds it) is
not reported as not found:
the `+1` per line accumulated by `get_current_line` makes it return 1. -/
theorem c4_counterexample :
    total_char_count [[97, 98], [99, 100]] = 4 ∧
      (5 : Int) > (4 : Int) ∧
      get_current_line [[97, 98], [99, 100]] 5 = 1 ∧ (1 : Int) ≠ -1 := by decide

lemma applyCall_finished (c : DrawCall) (surf : List GlyphDraw) (t : CombinedTexture)
    (hf : t.finished = true) (ht : t.texture = some surf) :
    (applyCall c (some t)).1 = some t ∧
    (applyCall c (some t)).2.length = 1 ∧
    ∀ e ∈ (applyCall c (some t)).2, isCacheBlit surf e = true := by
  obtain ⟨fin, tex⟩ := t
  simp only at hf ht
  subst hf
  subst ht
  cases c <;>
    simp [applyCall, draw_text, draw_utf8_text, draw_text_multiline, drawCore, isCacheBlit]

/-- Claim C2 (amended): if the `finished` flag of a target is true and its
texture is already allocated, then any sequence of `draw_text`,
`draw_utf8_text` and `draw_text_multiline` calls leaves the target —
surface and flag — exactly as it was, and each call emits exactly one
event, a pure blit of the cached surface, until an external actor clears
`finished`.  (The proviso is needed: when `finished` is true but the
texture is still null, `draw_text`/`draw_utf8_text` first allocate and
clear it, mutating the target; see the counterexample.) -/
theorem c2_finished_pure_read (cs : List DrawCall) (t : CombinedTexture)
    (surf : List GlyphDraw) (hf : t.finished = true) (ht : t.texture = some surf) :
    (runCalls cs (some t)).1 = some t ∧
    (runCalls cs (some t)).2.length = cs.length ∧
    ∀ e ∈ (runCalls cs (some t)).2, isCacheBlit surf e = true := by
  induction cs with
  | nil => simp [runCalls]
  | cons c cs ih =>
    obtain ⟨h1, h2, h3⟩ := applyCall_finished c surf t hf ht
    obtain ⟨ih1, ih2, ih3⟩ := ih
    simp only [runCalls, h1]
    refine ⟨ih1, ?_, ?_⟩
    · simp [h2, ih2]; omega
    · intro e he
      rcases List.mem_append.mp he with h | h
      · exact h3 e h
      · exact ih3 e h

theorem c2_witness :
    (({ finished := true, texture := some [] } : CombinedTexture).finished = true ∧
      ({ finished := true, texture := some [] } : CombinedTexture).texture = some []) ∧
    ((runCalls [DrawCall.text [104] [104] 0 0 10 0]
        (some { finished := true, texture := some [] })).1
      = some { finished := true, texture := some [] } ∧
    (runCalls [DrawCall.text [104] [104] 0 0 10 0]
        (some { finished := true, texture := some [] })).2.length
      = [DrawCall.text [104] [104] 0 0 10 0].length ∧
    ∀ e ∈ (runCalls [DrawCall.text [104] [104] 0 0 10 0]
        (some { finished := true, texture := some [] })).2, isCacheBlit [] e = true) :=
  ⟨⟨rfl, rfl⟩, c2_finished_pure_read [DrawCall.text [104] [104] 0 0 10 0]
    { finished := true, texture := some [] } [] rfl rfl⟩

/-- Claim C2 fails as stated when the texture of the finished target is still
null: `draw_text` allocates and clears the texture before the `finished`
check, mutating the target. -/
theorem c2_counterexample :
    ({ finished := true, texture := none } : CombinedTexture).finished = true ∧
      (draw_text [] [] 0 0 0 0 (some { finished := true, texture := none })).1
        ≠ some { finished := true, texture := none } := by decide

/-- Claim C6 (amended): on a reveal tick (timer exceeded, text not
complete), if the code point about to be revealed has no glyph in the
atlas and is not the space marker, the tick advances `type_counter` by
exactly one, issues no glyph draw (the target — surface and flag — is
untouched and the only event is a blit of the cached texture), leaves the
timer running, invokes no callback, and returns early.  `current_x` is
left unchanged *except* that the line-transition reset, which precedes
the skip check in the code, may first set it to `rect.x` when the skipped
character begins a new line. -/
theorem c6_unmapped_skip (text atlas : List Nat) (rect : Rect) (target : CombinedTexture)
    (stats : TypeStats) (size : Int) (hcb : Bool) (h_offset v_offset : Int)
    (hu : stats.utf8_text ≠ [])
    (h0 : 0 ≤ stats.type_counter)
    (hlt : stats.type_counter < (stats.utf8_text.length : Int))
    (hsz : stats.utf8_text.length < U32)
    (htimer : stats.timer > stats.duration)
    (hidx : get_char_index (stats.utf8_text.getD stats.type_counter.toNat 0) atlas = -1)
    (hc32 : stats.utf8_text.getD stats.type_counter.toNat 0 ≠ 32) :
    draw_typewriter text atlas rect target stats size hcb h_offset v_offset =
      { stats := { stats with
          type_counter := stats.type_counter + 1,
          current_x :=
            if stats.type_counter > 0 ∧
                get_current_line (get_all_lines text size h_offset rect.w)
                    stats.type_counter >
                  get_current_line (get_all_lines text size h_offset rect.w)
                    (stats.type_counter - 1)
            then rect.x else stats.current_x },
        target := target,
        events := [ScreenEvent.blitCache (target.texture.getD [])],
        callbackInvoked := false } := by
  have hlen0 : (stats.utf8_text.length == 0) = false := by
    simp [List.length_eq_zero]
    exact hu
  have hcomplete :
      ¬ toU32 stats.type_counter > (stats.utf8_text.length + U32 - 1) % U32 := by
    unfold toU32 U32 at *
    omega
  have hlit : (get_utf8_char_vector [32, 32]).getD 0 0 = 32 := rfl
  simp only [draw_typewriter, hlen0, Bool.false_eq_true, if_false, hlit]
  rw [if_neg hcomplete, if_pos htimer]
  split_ifs with hreset hskip hskip2
  · simp
  · exact absurd ⟨hidx, hc32⟩ hskip
  · simp
  · exact absurd ⟨hidx, hc32⟩ hskip2

theorem c6_witness :
    (([97, 98, 32, 99, 100] : List Nat) ≠ [] ∧ (0 : Int) ≤ 3 ∧ (1 : Rat) > 0 ∧
      get_char_index 99 [97, 98, 100] = -1) ∧
    draw_typewriter [97, 98, 32, 99, 100] [97, 98, 100] ⟨5, 0, 20, 50⟩
        { finished := true, texture := some [] }
        ⟨[97, 98, 32, 99, 100], 3, 77, 1, 0⟩ 10 true 0 70 =
      { stats := { (⟨[97, 98, 32, 99, 100], 3, 77, 1, 0⟩ : TypeStats) with
          type_counter := (3 : Int) + 1,
          current_x :=
            if (3 : Int) > 0 ∧
                get_current_line (get_all_lines [97, 98, 32, 99, 100] 10 0 20) 3 >
                  get_current_line (get_all_lines [97, 98, 32, 99, 100] 10 0 20) (3 - 1)
            then (5 : Int) else 77 },
        target := { finished := true, texture := some [] },
        events := [ScreenEvent.blitCache
          (({ finished := true, texture := some [] } : CombinedTexture).texture.getD [])],
        callbackInvoked := false } :=
  ⟨⟨by decide, by decide, by decide, by decide⟩,
    c6_unmapped_skip [97, 98, 32, 99, 100] [97, 98, 100] ⟨5, 0, 20, 50⟩
      { finished := true, texture := some [] } ⟨[97, 98, 32, 99, 100], 3, 77, 1, 0⟩
      10 true 0 70 (by decide) (by decide) (by decide) (by decide) (by decide)
      (by decide) (by decide)⟩

/-- Claim C6 fails as stated: skipping the unmapped, non-space code point
99 (absent from the atlas with bytes 97, 98, 100) at index 3 of the text
with bytes 97, 98, 32, 99, 100 — the first character of the second wrapped line — advances the counter and draws no
glyph, but `stats.current_x` is *not* left unchanged: the line-transition
reset (which precedes the skip check) moves it from 77 to `rect.x = 5`. -/
theorem c6_counterexample :
    (get_char_index 99 [97, 98, 100] = -1 ∧ (99 : Nat) ≠ 32) ∧
    (draw_typewriter [97, 98, 32, 99, 100] [97, 98, 100] ⟨5, 0, 20, 50⟩
        { finished := true, texture := some [] }
        ⟨[], 3, 77, 1, 0⟩ 10 true 0 70).stats.type_counter = 4 ∧
    (draw_typewriter [97, 98, 32, 99, 100] [97, 98, 100] ⟨5, 0, 20, 50⟩
        { finished := true, texture := some [] }
        ⟨[], 3, 77, 1, 0⟩ 10 true 0 70).events = [ScreenEvent.blitCache []] ∧
    (draw_typewriter [97, 98, 32, 99, 100] [97, 98, 100] ⟨5, 0, 20, 50⟩
        { finished := true, texture := some [] }
        ⟨[], 3, 77, 1, 0⟩ 10 true 0 70).stats.current_x = 5 ∧
    (5 : Int) ≠ 77 := by decide

/-- Claim C5 (amended): on a reveal tick the horizontal cursor is reset to
`rect.x` exactly when `type_counter > 0` and the `get_current_line` index
of the character about to be revealed is *strictly greater* than that of
the previous character.  This differs from the claimed condition that the line indices differ:
when `get_current_line` returns `-1` for the current index — which
happens for trailing characters once runs of consecutive spaces make the
decoded text longer than the total of `length + 1` over the wrapped lines — the
indices differ yet no reset occurs.  The theorem characterizes the
cursor after the tick: the reset base plus the advance (zero if the
character is skipped as unmapped). -/
theorem c5_cursor_reset (text atlas : List Nat) (rect : Rect) (target : CombinedTexture)
    (stats : TypeStats) (size : Int) (hcb : Bool) (h_offset v_offset : Int)
    (hu : stats.utf8_text ≠ [])
    (h0 : 0 ≤ stats.type_counter)
    (hlt : stats.type_counter < (stats.utf8_text.length : Int))
    (hsz : stats.utf8_text.length < U32)
    (htimer : stats.timer > stats.duration) :
    (draw_typewriter text atlas rect target stats size hcb h_offset v_offset).stats.current_x
      = (if stats.type_counter > 0 ∧
            get_current_line (get_all_lines text size h_offset rect.w) stats.type_counter >
              get_current_line (get_all_lines text size h_offset rect.w)
                (stats.type_counter - 1)
          then rect.x else stats.current_x)
        + (if get_char_index (stats.utf8_text.getD stats.type_counter.toNat 0) atlas = -1 ∧
              stats.utf8_text.getD stats.type_counter.toNat 0 ≠ 32
          then 0 else size - Int.tdiv (h_offset * size) 100) := by
  have hlen0 : (stats.utf8_text.length == 0) = false := by
    simp [List.length_eq_zero]
    exact hu
  have hcomplete :
      ¬ toU32 stats.type_counter > (stats.utf8_text.length + U32 - 1) % U32 := by
    unfold toU32 U32 at *
    omega
  have hlit : (get_utf8_char_vector [32, 32]).getD 0 0 = 32 := rfl
  simp only [draw_typewriter, hlen0, Bool.false_eq_true, if_false, hlit]
  rw [if_neg hcomplete, if_pos htimer]
  split_ifs with hreset hskip hskip2
  · simp
  · simp
  · simp
  · simp

theorem c5_witness :
    (([97, 98, 32, 99, 100] : List Nat) ≠ [] ∧ (0 : Int) ≤ 3 ∧
      (3 : Int) < 5 ∧ (1 : Rat) > 0) ∧
    (draw_typewriter [97, 98, 32, 99, 100] [97, 98, 100] ⟨5, 0, 20, 50⟩
        { finished := true, texture := some [] }
        ⟨[97, 98, 32, 99, 100], 3, 77, 1, 0⟩ 10 true 0 70).stats.current_x
      = (if (3 : Int) > 0 ∧
            get_current_line (get_all_lines [97, 98, 32, 99, 100] 10 0 20) 3 >
              get_current_line (get_all_lines [97, 98, 32, 99, 100] 10 0 20) (3 - 1)
          then (5 : Int) else 77)
        + (if get_char_index (([97, 98, 32, 99, 100] : List Nat).getD (3 : Int).toNat 0)
              [97, 98, 100] = -1 ∧
            ([97, 98, 32, 99, 100] : List Nat).getD (3 : Int).toNat 0 ≠ 32
          then 0 else 10 - Int.tdiv (0 * 10) 100) :=
  ⟨⟨by decide, by decide, by decide, by decide⟩,
    c5_cursor_reset [97, 98, 32, 99, 100] [97, 98, 100] ⟨5, 0, 20, 50⟩
      { finished := true, texture := some [] } ⟨[97, 98, 32, 99, 100], 3, 77, 1, 0⟩
      10 true 0 70 (by decide) (by decide) (by decide) (by decide) (by decide)⟩

/-- Claim C5 fails as stated: for the text bytes 97, 32, 32, 32, 98 (three spaces) wrapped to
a single wrapped line of three characters, the final character (byte 98)
at index 4 is about to be
revealed with `get_current_line` index `-1`, while the previous
index of the previous character is `0` — the indices differ, yet the cursor is *not*
reset to `rect.x = 5`: starting from `current_x = 77` the tick ends at
`87` (advance only), not at `15` (reset plus advance). -/
theorem c5_counterexample :
    get_current_line (get_all_lines [97, 32, 32, 32, 98] 10 0 100) 4 = -1 ∧
    get_current_line (get_all_lines [97, 32, 32, 32, 98] 10 0 100) 3 = 0 ∧
    ((-1 : Int) ≠ 0) ∧
    (draw_typewriter [97, 32, 32, 32, 98] [97, 98] ⟨5, 0, 100, 50⟩
        { finished := true, texture := some [] }
        ⟨[], 4, 77, 1, 0⟩ 10 true 0 70).stats.current_x = 87 ∧
    ((87 : Int) ≠ 5 + (10 - Int.tdiv (0 * 10) 100)) := by decide

lemma c1_facts :
    get_utf8_char_vector (remove_new_lines [195, 169]) = [50089] ∧
    get_char_index 50089 [195, 169] = 0 ∧
    get_utf8_char_vector [32, 32] = [32, 32] := by decide

lemma c1_tick (rect : Rect) (size : Int) (hcb : Bool) (h_offset v_offset : Int)
    (target : CombinedTexture) (u : List Nat) (tc cx : Int) (tm du : Rat)
    (hu : u = [] ∨ u = [50089]) (htc : tc = 0 ∨ tc = 1) :
    (draw_typewriter [195, 169] [195, 169] rect target ⟨u, tc, cx, tm, du⟩
        size hcb h_offset v_offset).callbackInvoked = false ∧
    (draw_typewriter [195, 169] [195, 169] rect target ⟨u, tc, cx, tm, du⟩
        size hcb h_offset v_offset).stats.utf8_text = [50089] ∧
    ((draw_typewriter [195, 169] [195, 169] rect target ⟨u, tc, cx, tm, du⟩
        size hcb h_offset v_offset).stats.type_counter = 0 ∨
      (draw_typewriter [195, 169] [195, 169] rect target ⟨u, tc, cx, tm, du⟩
        size hcb h_offset v_offset).stats.type_counter = 1) := by
  obtain ⟨hf1, hf2, hf3⟩ := c1_facts
  have hm2 : ((2 : Nat) + U32 - 1) % U32 = 1 := by norm_num [U32]
  have hm1 : ((1 : Nat) + U32 - 1) % U32 = 0 := by norm_num [U32]
  have ht0 : toU32 0 = 0 := rfl
  have ht1 : toU32 1 = 1 := rfl
  have hlen : (remove_new_lines [195, 169]).length = 2 := rfl
  rcases hu with rfl | rfl <;> rcases htc with rfl | rfl <;>
    simp [draw_typewriter, hf1, hf2, hf3, hlen, hm2, hm1, ht0, ht1] <;>
    split_ifs <;> simp_all <;> (intro h; norm_num [U32] at h)

lemma c1_run (ds : List Rat) :
    ∀ (rect : Rect) (size : Int) (hcb : Bool) (h_offset v_offset : Int)
      (target : CombinedTexture) (u : List Nat) (tc cx : Int) (tm du : Rat),
      (u = [] ∨ u = [50089]) → (tc = 0 ∨ tc = 1) →
      typewriterRun [195, 169] [195, 169] rect size hcb h_offset v_offset ds target
        ⟨u, tc, cx, tm, du⟩ = 0 := by
  induction ds with
  | nil => intros; rfl
  | cons d ds ih =>
    intro rect size hcb h_offset v_offset target u tc cx tm du hu htc
    rw [typewriterRun]
    obtain ⟨hcb1, hcb2, hcb3⟩ :=
      c1_tick rect size hcb h_offset v_offset target u tc cx (tm + d) du hu htc
    simp only at hcb1 hcb2 hcb3 ⊢
    rw [hcb1]
    simp only [Bool.false_eq_true, if_false, Nat.zero_add]
    cases hs : (draw_typewriter [195, 169] [195, 169] rect target ⟨u, tc, cx, tm + d, du⟩
        size hcb h_offset v_offset).stats with
    | mk u' tc' cx' tm' du' =>
      rw [hs] at hcb2 hcb3
      simp only at hcb2 hcb3
      exact ih rect size hcb h_offset v_offset _ u' tc' cx' tm' du' (Or.inr hcb2) hcb3

/-- Claim C1 is right and the code is wrong: the callback condition
compares `type_counter` against `tmptext.length() - 1`, the *byte* length
of the newline-stripped string, instead of the decoded code-point count.
For the text consisting of the 2-byte UTF-8 character with bytes 195, 169
(one code point, two bytes) and an atlas containing it, a supplied
callback is *never* invoked: over every frame-delta sequence, from a
fresh `TypeStats`, the number of callback invocations is 0 — even though
a reveal tick does reveal the final (only) code point, compositing its
glyph and advancing the counter to 1 = total, as the concrete conjuncts
show.  (For ASCII-only text byte length equals code-point count and the
callback fires exactly once, which is why the slip matches the header
documentation only for ASCII.) -/
theorem c1_callback_never_fires (rect : Rect) (size h_offset v_offset : Int)
    (target : CombinedTexture) (cx : Int) (tm du : Rat) (ds : List Rat) :
    typewriterRun [195, 169] [195, 169] rect size true h_offset v_offset ds target
        ⟨[], 0, cx, tm, du⟩ = 0 ∧
    (draw_typewriter [195, 169] [195, 169] ⟨0, 0, 100, 100⟩ ⟨false, some []⟩
        ⟨[], 0, 0, 1, 0⟩ 10 true 57 70).stats.type_counter = 1 ∧
    (get_utf8_char_vector [195, 169]).length = 1 ∧
    ((draw_typewriter [195, 169] [195, 169] ⟨0, 0, 100, 100⟩ ⟨false, some []⟩
        ⟨[], 0, 0, 1, 0⟩ 10 true 57 70).target.texture.getD []).length = 1 ∧
    (draw_typewriter [195, 169] [195, 169] ⟨0, 0, 100, 100⟩ ⟨false, some []⟩
        ⟨[], 0, 0, 1, 0⟩ 10 true 57 70).callbackInvoked = false :=
  ⟨c1_run ds rect size true h_offset v_offset target [] 0 cx tm du (Or.inl rfl) (Or.inl rfl),
    by decide, by decide, by decide, by decide⟩
